import Mathlib

/-!
# FontInspector — verification of the analyzer and interaction-state core

Shallow embedding of the FontInspector repository
(`src/modules/FontHierarchyAnalyzer.ts` and `src/modules/FontDetectorUI.ts`):
the font-name standardization, the usage-statistics / primary-font update,
the depth-first hierarchy analysis, and the interaction/state engine
(element tracking, highlighting, panels, z-order, deactivation).

DOM computed styles, visibility and text content are modelled as fields of
the element states; element identity is a `Nat`.
-/

namespace FontInspector

/-! ## String helpers (JS string operations used by `standardizeFontName`) -/

/-- Matches the regex `/["']/` in `standardizeFontName` (quote characters,
code points 34 and 39). -/
def isQuoteChar (c : Char) : Bool := c.toNat = 34 || c.toNat = 39

/-- Matches `[^\x00-\x7F]`: `true` when the character is kept (ASCII). -/
def isAsciiChar (c : Char) : Bool := c.toNat ≤ 0x7F

/-- JS `\s` restricted to ASCII (space, tab, LF, VT, FF, CR); after the
non-ASCII strip only these whitespace characters can remain. -/
def isJsSpace (c : Char) : Bool :=
  c.toNat = 32 || c.toNat = 9 || c.toNat = 10 || c.toNat = 11 || c.toNat = 12 || c.toNat = 13

/-- JS `String.prototype.trim` on a character list. -/
def trimChars (l : List Char) : List Char :=
  ((l.dropWhile isJsSpace).reverse.dropWhile isJsSpace).reverse

/-- JS `.replace(/\s+/g, ' ')`: collapse every run of whitespace to a single
space.  `prevSpace` records whether the previous character was whitespace. -/
def collapseSpacesAux : Bool → List Char → List Char
  | _, [] => []
  | prevSpace, c :: cs =>
    if isJsSpace c then
      if prevSpace then collapseSpacesAux true cs
      else ' ' :: collapseSpacesAux true cs
    else c :: collapseSpacesAux false cs

def collapseSpaces (l : List Char) : List Char := collapseSpacesAux false l

/-- `l` starts with `pat` (character-wise). -/
def startsWithChars : List Char → List Char → Bool
  | _, [] => true
  | [], _ :: _ => false
  | c :: cs, p :: ps => c = p && startsWithChars cs ps

/-- JS `String.prototype.includes`: `pat` occurs as a contiguous substring. -/
def hasSubstr : List Char → List Char → Bool
  | [], pat => startsWithChars [] pat
  | c :: cs, pat => startsWithChars (c :: cs) pat || hasSubstr cs pat

/-- JS `String.prototype.split(' ')` (split on the single space character). -/
def splitSpaces : List Char → List (List Char)
  | [] => [[]]
  | c :: cs =>
    if c = ' ' then [] :: splitSpaces cs
    else
      match splitSpaces cs with
      | w :: ws => (c :: w) :: ws
      | [] => [[c]]

/-- `word.charAt(0).toUpperCase() + word.slice(1).toLowerCase()`. -/
def titleWord : List Char → List Char
  | [] => []
  | c :: rest => c.toUpper :: rest.map Char.toLower

/-- JS `Array.prototype.join(' ')`. -/
def joinSpaces (ws : List (List Char)) : List Char := (ws.intersperse [' ']).flatten

/-- Lower-case a string character-wise (JS `toLowerCase` on ASCII data). -/
def lowerStr (s : String) : String := String.mk (s.data.map Char.toLower)

/-! ## `FontHierarchyAnalyzer.standardizeFontName` -/

/-- The cleaning pipeline of `standardizeFontName`
(`FontHierarchyAnalyzer.ts` lines 29–33): remove quotes, remove non-ASCII
characters, trim, collapse whitespace runs to single spaces. -/
def cleanFontChars (fontName : String) : List Char :=
  collapseSpaces (trimChars ((fontName.data.filter (fun c => !(isQuoteChar c))).filter isAsciiChar))

/-- The case analysis of `standardizeFontName` after cleaning
(`FontHierarchyAnalyzer.ts` lines 36–45): generic-family substring checks,
then word-wise title-casing, with `'System Default'` for an empty result. -/
def standardizeCore (clean : List Char) : String :=
  let lower := clean.map Char.toLower
  if hasSubstr lower "monospace".data then "Monospace"
  else if hasSubstr lower "sans-serif".data then "Sans-serif"
  else if hasSubstr lower "serif".data then "Serif"
  else
    let titled := joinSpaces ((splitSpaces clean).map titleWord)
    if titled = [] then "System Default" else String.mk titled

/-- `FontHierarchyAnalyzer.standardizeFontName`
(`FontHierarchyAnalyzer.ts` lines 25–46). -/
def standardizeFontName (fontName : String) : String :=
  if fontName = "" then "System Default"
  else standardizeCore (cleanFontChars fontName)

/-! ## Association-list model of JS `Map` (insertion-ordered) -/

/-- First-match lookup, as JS `Map.get`. -/
def alookup {α : Type} (k : String) : List (String × α) → Option α
  | [] => none
  | p :: ps => if p.1 = k then some p.2 else alookup k ps

/-- JS `Map.set`: overwrite in place if the key exists (keeping its
insertion position), otherwise append at the end. -/
def aset {α : Type} (k : String) (v : α) : List (String × α) → List (String × α)
  | [] => [(k, v)]
  | p :: ps => if p.1 = k then (k, v) :: ps else p :: aset k v ps

/-- JS `Map.delete`. -/
def aerase {α : Type} (k : String) : List (String × α) → List (String × α)
  | [] => []
  | p :: ps => if p.1 = k then aerase k ps else p :: aerase k ps

/-- In-place mutation of the value stored under `k` (a JS object held in a
`Map` mutated through its reference). -/
def amodify {α : Type} (k : String) (f : α → α) : List (String × α) → List (String × α)
  | [] => []
  | p :: ps => if p.1 = k then (p.1, f p.2) :: amodify k f ps else p :: amodify k f ps

theorem alookup_aset_self {α : Type} (k : String) (v : α) (l : List (String × α)) :
    alookup k (aset k v l) = some v := by
  induction l with
  | nil => simp [aset, alookup]
  | cons p ps ih =>
    by_cases h : p.1 = k
    · simp [aset, alookup, h]
    · simp [aset, alookup, h, ih]

theorem alookup_aset_ne {α : Type} {k k' : String} (h : k' ≠ k) (v : α)
    (l : List (String × α)) : alookup k' (aset k v l) = alookup k' l := by
  have hkk : ¬ (k = k') := fun hh => h hh.symm
  induction l with
  | nil => simp [aset, alookup, hkk]
  | cons p ps ih =>
    by_cases hp : p.1 = k
    · simp [aset, alookup, hp, hkk]
    · simp only [aset, hp, if_false, alookup]
      by_cases hpk : p.1 = k'
      · simp [hpk]
      · simp [hpk, ih]

theorem alookup_aerase_self {α : Type} (k : String) (l : List (String × α)) :
    alookup k (aerase k l) = none := by
  induction l with
  | nil => simp [aerase, alookup]
  | cons p ps ih =>
    by_cases h : p.1 = k
    · simp [aerase, h, ih]
    · simp [aerase, alookup, h, ih]

theorem alookup_aerase_ne {α : Type} {k k' : String} (h : k' ≠ k)
    (l : List (String × α)) : alookup k' (aerase k l) = alookup k' l := by
  induction l with
  | nil => simp [aerase, alookup]
  | cons p ps ih =>
    by_cases hp : p.1 = k
    · have hkk : ¬ (k = k') := fun hh => h hh.symm
      simp [aerase, alookup, hp, hkk, ih]
    · simp only [aerase, hp, if_false, alookup]
      by_cases hpk : p.1 = k'
      · simp [hpk]
      · simp [hpk, ih]

theorem alookup_some_mem {α : Type} {k : String} {v : α} {l : List (String × α)}
    (h : alookup k l = some v) : (k, v) ∈ l := by
  induction l with
  | nil => simp [alookup] at h
  | cons p ps ih =>
    by_cases hp : p.1 = k
    · simp only [alookup, hp, if_true, Option.some.injEq] at h
      cases p
      cases hp
      cases h
      exact List.mem_cons_self _ _
    · simp only [alookup, hp, if_false] at h
      exact List.mem_cons_of_mem _ (ih h)

theorem alookup_eq_none_iff {α : Type} {k : String} {l : List (String × α)} :
    alookup k l = none ↔ ∀ p ∈ l, p.1 ≠ k := by
  induction l with
  | nil => simp [alookup]
  | cons p ps ih =>
    by_cases hp : p.1 = k
    · simp [alookup, hp]
    · simp [alookup, hp, ih]

theorem mem_aerase {α : Type} {k : String} {p : String × α} {l : List (String × α)}
    (h : p ∈ aerase k l) : p ∈ l := by
  induction l with
  | nil => simp [aerase] at h
  | cons q qs ih =>
    by_cases hq : q.1 = k
    · simp only [aerase, hq, if_true] at h
      exact List.mem_cons_of_mem _ (ih h)
    · simp only [aerase, hq, if_false, List.mem_cons] at h
      rcases h with h | h
      · exact h ▸ List.mem_cons_self _ _
      · exact List.mem_cons_of_mem _ (ih h)

theorem aerase_aset {α : Type} (k : String) (v : α) (l : List (String × α)) :
    aerase k (aset k v l) = aerase k l := by
  induction l with
  | nil => simp [aset, aerase]
  | cons p ps ih =>
    by_cases h : p.1 = k
    · simp [aset, aerase, h]
    · simp [aset, aerase, h, ih]

theorem aerase_eq_self {α : Type} {k : String} {l : List (String × α)}
    (h : alookup k l = none) : aerase k l = l := by
  induction l with
  | nil => rfl
  | cons p ps ih =>
    by_cases hp : p.1 = k
    · simp [alookup, hp] at h
    · simp only [alookup, hp, if_false] at h
      simp [aerase, hp, ih h]

theorem alookup_amodify_self {α : Type} (k : String) (f : α → α) (l : List (String × α)) :
    alookup k (amodify k f l) = (alookup k l).map f := by
  induction l with
  | nil => rfl
  | cons p ps ih =>
    by_cases hp : p.1 = k
    · simp [amodify, alookup, hp]
    · simp [amodify, alookup, hp, ih]

theorem alookup_amodify_ne {α : Type} {k k' : String} (h : k' ≠ k) (f : α → α)
    (l : List (String × α)) : alookup k' (amodify k f l) = alookup k' l := by
  induction l with
  | nil => rfl
  | cons p ps ih =>
    by_cases hp : p.1 = k
    · have hkk : ¬ (k = k') := fun hh => h hh.symm
      simp [amodify, alookup, hp, hkk, ih]
    · simp only [amodify, hp, if_false, alookup]
      by_cases hpk : p.1 = k'
      · simp [hpk]
      · simp [hpk, ih]

theorem mem_amodify {α : Type} {k : String} {f : α → α} {p : String × α}
    {l : List (String × α)} (h : p ∈ amodify k f l) :
    p ∈ l ∨ ∃ q ∈ l, p = (q.1, f q.2) := by
  induction l with
  | nil => simp [amodify] at h
  | cons q qs ih =>
    by_cases hq : q.1 = k
    · simp only [amodify, hq, if_true, List.mem_cons] at h
      rcases h with h | h
      · exact Or.inr ⟨q, List.mem_cons_self _ _, by rw [hq]; exact h⟩
      · rcases ih h with h2 | ⟨r, hr, hpr⟩
        · exact Or.inl (List.mem_cons_of_mem _ h2)
        · exact Or.inr ⟨r, List.mem_cons_of_mem _ hr, hpr⟩
    · simp only [amodify, hq, if_false, List.mem_cons] at h
      rcases h with h | h
      · exact Or.inl (h ▸ List.mem_cons_self _ _)
      · rcases ih h with h2 | ⟨r, hr, hpr⟩
        · exact Or.inl (List.mem_cons_of_mem _ h2)
        · exact Or.inr ⟨r, List.mem_cons_of_mem _ hr, hpr⟩

theorem le_foldl_max (l : List Nat) (b : Nat) : b ≤ l.foldl max b := by
  induction l generalizing b with
  | nil => exact Nat.le_refl b
  | cons x xs ih => exact Nat.le_trans (Nat.le_max_left b x) (ih (max b x))

theorem mem_le_foldl_max {a : Nat} {l : List Nat} (b : Nat) (h : a ∈ l) :
    a ≤ l.foldl max b := by
  induction l generalizing b with
  | nil => simp at h
  | cons x xs ih =>
    rcases List.mem_cons.mp h with h | h
    · subst h
      exact Nat.le_trans (Nat.le_max_right b a) (le_foldl_max xs (max b a))
    · exact ih (max b x) h

theorem foldl_max_le {l : List Nat} {b c : Nat} (hb : b ≤ c) (h : ∀ a ∈ l, a ≤ c) :
    l.foldl max b ≤ c := by
  induction l generalizing b with
  | nil => exact hb
  | cons x xs ih =>
    exact ih (Nat.max_le.mpr ⟨hb, h x (List.mem_cons_self _ _)⟩)
      (fun a ha => h a (List.mem_cons_of_mem _ ha))

theorem foldl_max_mem (l : List Nat) (b : Nat) :
    l.foldl max b = b ∨ l.foldl max b ∈ l := by
  induction l generalizing b with
  | nil => exact Or.inl rfl
  | cons x xs ih =>
    rcases ih (max b x) with h | h
    · rcases max_choice b x with h2 | h2
      · exact Or.inl (by rw [List.foldl_cons, h, h2])
      · exact Or.inr (by rw [List.foldl_cons, h, h2]; exact List.mem_cons_self _ _)
    · exact Or.inr (List.mem_cons_of_mem _ h)

theorem nodup_mem_alookup {α : Type} {k : String} {v : α} {l : List (String × α)}
    (hnd : (l.map Prod.fst).Nodup) (hmem : (k, v) ∈ l) : alookup k l = some v := by
  induction l with
  | nil => simp at hmem
  | cons p ps ih =>
    simp only [List.map_cons, List.nodup_cons] at hnd
    rcases List.mem_cons.mp hmem with h | h
    · simp [alookup, ← h]
    · have hne : p.1 ≠ k := by
        intro hk
        exact hnd.1 (hk ▸ (List.mem_map.mpr ⟨(k, v), h, rfl⟩))
      simp [alookup, hne, ih hnd.2 h]

/-! ## `FontHierarchyAnalyzer`: usage statistics and primary font -/

/-- The mutable statistics of `FontHierarchyAnalyzer`
(`fontUsageStats` insertion-ordered map and `primaryFont`). -/
structure AnalyzerState where
  fontUsageStats : List (String × Nat)
  primaryFont : Option String
deriving DecidableEq, Repr

def analyzerInit : AnalyzerState := ⟨[], none⟩

/-- `this.fontUsageStats.get(name) || 0`. -/
def getCount (stats : List (String × Nat)) (k : String) : Nat := (alookup k stats).getD 0

/-- Helper for `updateFontUsageStats`: the `currentPrimaryCount` read
(`this.fontUsageStats.get(this.primaryFont) || 0`), performed on the map
after the `set`, exactly as in the source. -/
def currentPrimaryCount (primary : Option String) (stats1 : List (String × Nat)) : Nat :=
  match primary with
  | some p => getCount stats1 p
  | none => 0

/-- `FontHierarchyAnalyzer.updateFontUsageStats`
(`FontHierarchyAnalyzer.ts` lines 106–120): increment the counter of the
standardized name, then promote it to primary exactly when the new count
strictly exceeds the current primary count. -/
def updateFontUsageStats (st : AnalyzerState) (fontName : String) : AnalyzerState :=
  if fontName = "" then st
  else
    { fontUsageStats :=
        aset (standardizeFontName fontName)
          (getCount st.fontUsageStats (standardizeFontName fontName) + 1) st.fontUsageStats,
      primaryFont :=
        if getCount st.fontUsageStats (standardizeFontName fontName) + 1 >
            currentPrimaryCount st.primaryFont
              (aset (standardizeFontName fontName)
                (getCount st.fontUsageStats (standardizeFontName fontName) + 1)
                st.fontUsageStats) then
          some (standardizeFontName fontName)
        else st.primaryFont }

/-- `FontHierarchyAnalyzer.getPrimaryFont` (lines 169–171). -/
def getPrimaryFont (st : AnalyzerState) : String := st.primaryFont.getD "System Default"

/-- The count held for the current primary font (0 when none yet). -/
def primaryCount (st : AnalyzerState) : Nat :=
  match st.primaryFont with
  | some p => getCount st.fontUsageStats p
  | none => 0

/-- Spec-side model, following the spec words: the primary font is "the
first name to reach the running maximum count".  `runningMax` is the largest
counter value seen so far; `firstToMax` is the name that first attained it. -/
structure PrimarySpecState where
  counts : List (String × Nat)
  runningMax : Nat
  firstToMax : Option String
deriving DecidableEq, Repr

def primarySpecInit : PrimarySpecState := ⟨[], 0, none⟩

/-- One counted (standardized) font name arrives: its counter rises by one;
when the new counter strictly exceeds the running maximum, this name becomes
the new first-to-reach-the-maximum name; on a tie nothing changes. -/
def primarySpecStep (st : PrimarySpecState) (fontName : String) : PrimarySpecState :=
  if fontName = "" then st
  else if getCount st.counts (standardizeFontName fontName) + 1 > st.runningMax then
    ⟨aset (standardizeFontName fontName)
        (getCount st.counts (standardizeFontName fontName) + 1) st.counts,
      getCount st.counts (standardizeFontName fontName) + 1,
      some (standardizeFontName fontName)⟩
  else
    ⟨aset (standardizeFontName fontName)
        (getCount st.counts (standardizeFontName fontName) + 1) st.counts,
      st.runningMax, st.firstToMax⟩

theorem getCount_aset_self (stats : List (String × Nat)) (k : String) (v : Nat) :
    getCount (aset k v stats) k = v := by
  simp [getCount, alookup_aset_self]

theorem getCount_aset_ne {k k' : String} (h : k' ≠ k) (stats : List (String × Nat))
    (v : Nat) : getCount (aset k v stats) k' = getCount stats k' := by
  simp [getCount, alookup_aset_ne h]

/-- Simulation invariant between the analyzer state and the spec model. -/
def PrimaryRel (a : AnalyzerState) (b : PrimarySpecState) : Prop :=
  a.fontUsageStats = b.counts ∧ a.primaryFont = b.firstToMax ∧
  (∀ k, getCount a.fontUsageStats k ≤ b.runningMax) ∧
  (match a.primaryFont with
   | some p => getCount a.fontUsageStats p = b.runningMax
   | none => b.runningMax = 0 ∧ a.fontUsageStats = [])

theorem primaryRel_step {a : AnalyzerState} {b : PrimarySpecState}
    (h : PrimaryRel a b) (name : String) :
    PrimaryRel (updateFontUsageStats a name) (primarySpecStep b name) := by
  obtain ⟨sa, pa⟩ := a
  obtain ⟨cb, mb, fb⟩ := b
  obtain ⟨hstats, hprim, hbound, hmax⟩ := h
  simp only at hstats hprim hbound hmax
  subst hstats
  subst hprim
  by_cases hne : name = ""
  · exact hne ▸ ⟨rfl, rfl, hbound, hmax⟩
  cases pa with
  | none =>
    obtain ⟨hmax0, hempty⟩ := hmax
    subst hmax0
    subst hempty
    have hcode : updateFontUsageStats ⟨[], none⟩ name
        = ⟨[(standardizeFontName name, 1)], some (standardizeFontName name)⟩ := by
      simp [updateFontUsageStats, currentPrimaryCount, hne, getCount, alookup, aset]
    have hspec : primarySpecStep ⟨[], 0, none⟩ name
        = ⟨[(standardizeFontName name, 1)], 1, some (standardizeFontName name)⟩ := by
      simp [primarySpecStep, hne, getCount, alookup, aset]
    rw [hcode, hspec]
    refine ⟨rfl, rfl, ?_, ?_⟩
    · intro k
      by_cases hk : k = standardizeFontName name
      · simp [hk, getCount, alookup]
      · have hk2 : ¬ (standardizeFontName name = k) := fun hh => hk hh.symm
        simp [getCount, alookup, hk2]
    · simp [getCount, alookup]
  | some p =>
    simp only at hmax
    by_cases hpn : p = standardizeFontName name
    · -- the counted name is the current primary: the self-tie comparison
      -- fails on the code side, the running max rises on the spec side
      have hread : currentPrimaryCount (some p)
          (aset (standardizeFontName name)
            (getCount sa (standardizeFontName name) + 1) sa)
          = getCount sa (standardizeFontName name) + 1 := by
        simp only [currentPrimaryCount, hpn, getCount_aset_self]
      have hcode : updateFontUsageStats ⟨sa, some p⟩ name
          = ⟨aset (standardizeFontName name)
              (getCount sa (standardizeFontName name) + 1) sa, some p⟩ := by
        simp only [updateFontUsageStats, hne, if_false, hread]
        simp
      have hgt : getCount sa (standardizeFontName name) + 1 > mb := by
        rw [← hmax, hpn]
        omega
      have hspec : primarySpecStep ⟨sa, mb, some p⟩ name
          = ⟨aset (standardizeFontName name)
              (getCount sa (standardizeFontName name) + 1) sa,
             getCount sa (standardizeFontName name) + 1,
             some (standardizeFontName name)⟩ := by
        simp [primarySpecStep, hne, hgt]
      rw [hcode, hspec]
      refine ⟨rfl, by simp [hpn], ?_, ?_⟩
      · intro k
        by_cases hk : k = standardizeFontName name
        · simp [hk, getCount_aset_self]
        · have h1 := hbound k
          have h2 := getCount_aset_ne hk sa (getCount sa (standardizeFontName name) + 1)
          simp only [h2]
          omega
      · simp only [hpn, getCount_aset_self]
    · -- the counted name differs from the current primary
      have hread : currentPrimaryCount (some p)
          (aset (standardizeFontName name)
            (getCount sa (standardizeFontName name) + 1) sa) = mb := by
        simp [currentPrimaryCount, getCount_aset_ne hpn, hmax]
      by_cases hgt : getCount sa (standardizeFontName name) + 1 > mb
      · have hcode : updateFontUsageStats ⟨sa, some p⟩ name
            = ⟨aset (standardizeFontName name)
                (getCount sa (standardizeFontName name) + 1) sa,
               some (standardizeFontName name)⟩ := by
          simp only [updateFontUsageStats, hne, if_false, hread]
          simp [hgt]
        have hspec : primarySpecStep ⟨sa, mb, some p⟩ name
            = ⟨aset (standardizeFontName name)
                (getCount sa (standardizeFontName name) + 1) sa,
               getCount sa (standardizeFontName name) + 1,
               some (standardizeFontName name)⟩ := by
          simp [primarySpecStep, hne, hgt]
        rw [hcode, hspec]
        refine ⟨rfl, rfl, ?_, ?_⟩
        · intro k
          by_cases hk : k = standardizeFontName name
          · simp [hk, getCount_aset_self]
          · have h1 := hbound k
            have h2 := getCount_aset_ne hk sa (getCount sa (standardizeFontName name) + 1)
            simp only [h2]
            omega
        · simp [getCount_aset_self]
      · have hcode : updateFontUsageStats ⟨sa, some p⟩ name
            = ⟨aset (standardizeFontName name)
                (getCount sa (standardizeFontName name) + 1) sa, some p⟩ := by
          simp only [updateFontUsageStats, hne, if_false, hread]
          simp [hgt]
        have hspec : primarySpecStep ⟨sa, mb, some p⟩ name
            = ⟨aset (standardizeFontName name)
                (getCount sa (standardizeFontName name) + 1) sa, mb, some p⟩ := by
          simp [primarySpecStep, hne, hgt]
        rw [hcode, hspec]
        refine ⟨rfl, rfl, ?_, ?_⟩
        · intro k
          by_cases hk : k = standardizeFontName name
          · have h2 : getCount (aset (standardizeFontName name)
                (getCount sa (standardizeFontName name) + 1) sa) k
                = getCount sa (standardizeFontName name) + 1 := by
              rw [hk]; exact getCount_aset_self _ _ _
            simp only [h2]
            omega
          · have h1 := hbound k
            have h2 := getCount_aset_ne hk sa (getCount sa (standardizeFontName name) + 1)
            simp only [h2]
            omega
        · simp [getCount_aset_ne hpn, hmax]

theorem primaryRel_fold (names : List String) :
    PrimaryRel (names.foldl updateFontUsageStats analyzerInit)
      (names.foldl primarySpecStep primarySpecInit) := by
  suffices h : ∀ (a : AnalyzerState) (b : PrimarySpecState), PrimaryRel a b →
      PrimaryRel (names.foldl updateFontUsageStats a) (names.foldl primarySpecStep b) by
    exact h _ _ ⟨rfl, rfl, fun k => by simp [analyzerInit, primarySpecInit, getCount, alookup],
      ⟨rfl, rfl⟩⟩
  induction names with
  | nil => intro a b hr; exact hr
  | cons x xs ih =>
    intro a b hr
    exact ih _ _ (primaryRel_step hr x)

/-! ## `FontHierarchyAnalyzer.analyzeHierarchy` -/

/-- A DOM element subtree as the analyzer observes it.  `visible` stands for
the computed-style visibility test of `isElementVisible` (display,
visibility, opacity, layout box), `hasText` for the `hasTextContent` test,
and `fontFamily` for the computed `font-family` list of the element. -/
inductive DomTree where
  | mk (tag : String) (visible : Bool) (hasText : Bool) (fontFamily : String)
      (children : List DomTree)

def DomTree.tag : DomTree → String
  | .mk t _ _ _ _ => t

def DomTree.visible : DomTree → Bool
  | .mk _ v _ _ _ => v

def DomTree.hasText : DomTree → Bool
  | .mk _ _ h _ _ => h

def DomTree.fontFamily : DomTree → String
  | .mk _ _ _ f _ => f

def DomTree.children : DomTree → List DomTree
  | .mk _ _ _ _ c => c

/-- A node of the produced hierarchy (`FontHierarchyData` restricted to the
fields the analyzed claims touch: lower-cased tag, standardized font name of
the metrics, children in traversal order; `frequency` is the constant 1). -/
inductive HNode where
  | mk (tag : String) (fontName : String) (children : List HNode)

/-- The `excludedTags` set of `FontHierarchyAnalyzer.ts` lines 13–17. -/
def excludedTags : List String :=
  ["script", "style", "meta", "link", "noscript", "iframe",
   "object", "embed", "param", "source", "track", "svg", "path",
   "circle", "rect", "polygon", "canvas"]

/-- `FontHierarchyAnalyzer.shouldAnalyzeElement` (lines 61–65). -/
def shouldAnalyzeElement (t : DomTree) : Bool :=
  !(excludedTags.contains (lowerStr t.tag)) && t.visible && t.hasText

/-- JS `String.prototype.split(sep)` for a one-character separator, on
character lists. -/
def splitOnSep (sep : Char) : List Char → List (List Char)
  | [] => [[]]
  | c :: cs =>
    if c = sep then [] :: splitOnSep sep cs
    else
      match splitOnSep sep cs with
      | w :: ws => (c :: w) :: ws
      | [] => [[c]]

/-- The primary entry of `style.fontFamily.split(',').map(f => f.trim())`;
`null` (none) when the first entry is empty, as in `getElementFontMetrics`
(lines 128–132). -/
def firstFamily (fontFamily : String) : Option String :=
  match (splitOnSep ',' fontFamily.data).map (fun f => String.mk (trimChars f)) with
  | [] => none
  | f :: _ => if f = "" then none else some f

/-- The `name` field of `getElementFontMetrics` (line 135): the standardized
first family, or `none` when metrics extraction fails. -/
def metricsName (t : DomTree) : Option String :=
  (firstFamily t.fontFamily).map standardizeFontName

mutual
/-- `FontHierarchyAnalyzer.analyzeHierarchy` (lines 67–104): early return on
a non-qualifying element or failed metrics extraction (pruning the whole
subtree), otherwise update the usage statistics, then recurse into the
children, collecting their nodes under the current node. -/
def analyzeHierarchy (st : AnalyzerState) : DomTree → AnalyzerState × Option HNode
  | DomTree.mk tag visible hasText fontFamily children =>
    if shouldAnalyzeElement (DomTree.mk tag visible hasText fontFamily children) then
      match metricsName (DomTree.mk tag visible hasText fontFamily children) with
      | none => (st, none)
      | some name =>
        match analyzeChildren (updateFontUsageStats st name) children with
        | (st2, nodes) => (st2, some (HNode.mk (lowerStr tag) name nodes))
    else (st, none)

/-- The `forEach` over `element.children` in `analyzeHierarchy`. -/
def analyzeChildren (st : AnalyzerState) : List DomTree → AnalyzerState × List HNode
  | [] => (st, [])
  | c :: cs =>
    match analyzeHierarchy st c with
    | (st1, node) =>
      match analyzeChildren st1 cs with
      | (st2, nodes) => (st2, node.toList ++ nodes)
end

mutual
/-- The metric names counted by the traversal, in traversal order: a
non-qualifying element (or one without extractable metrics) contributes
nothing, and neither does anything below it. -/
def qualifyingNames : DomTree → List String
  | DomTree.mk tag visible hasText fontFamily children =>
    if shouldAnalyzeElement (DomTree.mk tag visible hasText fontFamily children) then
      match metricsName (DomTree.mk tag visible hasText fontFamily children) with
      | none => []
      | some name => name :: qualifyingNamesList children
    else []

def qualifyingNamesList : List DomTree → List String
  | [] => []
  | c :: cs => qualifyingNames c ++ qualifyingNamesList cs
end

mutual
/-- The hierarchy node produced for a subtree: the subtree restricted to
elements reachable through qualifying ancestors only. -/
def prunedNode : DomTree → Option HNode
  | DomTree.mk tag visible hasText fontFamily children =>
    if shouldAnalyzeElement (DomTree.mk tag visible hasText fontFamily children) then
      match metricsName (DomTree.mk tag visible hasText fontFamily children) with
      | none => none
      | some name => some (HNode.mk (lowerStr tag) name (prunedList children))
    else none

def prunedList : List DomTree → List HNode
  | [] => []
  | c :: cs => (prunedNode c).toList ++ prunedList cs
end

mutual
/-- The traversal equals the fold of `updateFontUsageStats` over the
qualifying names, and produces exactly the pruned node. -/
theorem analyzeHierarchy_eq (st : AnalyzerState) (t : DomTree) :
    analyzeHierarchy st t
      = ((qualifyingNames t).foldl updateFontUsageStats st, prunedNode t) := by
  cases t with
  | mk tag visible hasText fontFamily children =>
    rw [analyzeHierarchy, qualifyingNames, prunedNode]
    by_cases hq : shouldAnalyzeElement (DomTree.mk tag visible hasText fontFamily children)
    · rw [if_pos hq, if_pos hq, if_pos hq]
      cases hm : metricsName (DomTree.mk tag visible hasText fontFamily children) with
      | none => rfl
      | some name =>
        have hch := analyzeChildren_eq (updateFontUsageStats st name) children
        simp only [hch]
        rfl
    · rw [if_neg hq, if_neg hq, if_neg hq]
      rfl

theorem analyzeChildren_eq (st : AnalyzerState) (ts : List DomTree) :
    analyzeChildren st ts
      = ((qualifyingNamesList ts).foldl updateFontUsageStats st, prunedList ts) := by
  cases ts with
  | nil => rfl
  | cons c cs =>
    rw [analyzeChildren, qualifyingNamesList, prunedList, analyzeHierarchy_eq st c]
    have h2 := analyzeChildren_eq ((qualifyingNames c).foldl updateFontUsageStats st) cs
    simp only [h2, List.foldl_append]
end

/-- Folding the counter update adds, for each key, exactly the number of
counted names standardizing to that key. -/
theorem getCount_foldl_update (names : List String) (st : AnalyzerState) (k : String) :
    getCount (names.foldl updateFontUsageStats st).fontUsageStats k
      = getCount st.fontUsageStats k
        + names.countP (fun n => !(n == "") && (standardizeFontName n == k)) := by
  induction names generalizing st with
  | nil => simp
  | cons x xs ih =>
    rw [List.foldl_cons, ih, List.countP_cons]
    by_cases hx : x = ""
    · simp [updateFontUsageStats, hx]
    · have hstats : (updateFontUsageStats st x).fontUsageStats
          = aset (standardizeFontName x)
              (getCount st.fontUsageStats (standardizeFontName x) + 1) st.fontUsageStats := by
        simp only [updateFontUsageStats, hx, if_false]
      by_cases hk : standardizeFontName x = k
      · rw [← hk]
        have hc : getCount (updateFontUsageStats st x).fontUsageStats (standardizeFontName x)
            = getCount st.fontUsageStats (standardizeFontName x) + 1 := by
          rw [hstats]
          exact getCount_aset_self _ _ _
        have hp : (!(x == "") && (standardizeFontName x == standardizeFontName x)) = true := by
          simp [hx]
        rw [hc, hp]
        simp
        omega
      · have hkk : k ≠ standardizeFontName x := fun hh => hk hh.symm
        have hc : getCount (updateFontUsageStats st x).fontUsageStats k
            = getCount st.fontUsageStats k := by
          rw [hstats]
          exact getCount_aset_ne hkk _ _
        have hp : (!(x == "") && (standardizeFontName x == k)) = false := by
          simp [hx, hk]
        rw [hc, hp]
        simp

/-! ## `FontHierarchyAnalyzer.getFontUsageStats` — reference semantics

`getFontUsageStats` returns `new Map([...this.fontUsageStats.entries()]
.sort((a, b) => b[1] - a[1]))` (lines 177–179).  To talk about aliasing we
model the JS `Map` objects of this method as cells of a small heap: a cell
index is a map reference, `new Map` allocates a fresh cell, and mutating a
map writes its cell. -/

/-- Stable descending insertion (by count) of one entry. -/
def insertDesc (x : String × Nat) : List (String × Nat) → List (String × Nat)
  | [] => [x]
  | y :: ys => if x.2 ≤ y.2 then y :: insertDesc x ys else x :: y :: ys

/-- `[...entries].sort((a, b) => b[1] - a[1])`: stable sort, descending by
count. -/
def sortStatsDesc (l : List (String × Nat)) : List (String × Nat) :=
  l.foldl (fun acc x => insertDesc x acc) []

/-- Heap of JS `Map` objects (contents of `Map<string, number>` cells);
a reference is an index into `cells`. -/
structure MapHeap where
  cells : List (List (String × Nat))
deriving DecidableEq, Repr

def readCell (h : MapHeap) (r : Nat) : List (String × Nat) := (h.cells.get? r).getD []

/-- A caller mutating a map through its reference. -/
def writeCell (h : MapHeap) (r : Nat) (v : List (String × Nat)) : MapHeap :=
  ⟨h.cells.set r v⟩

/-- `new Map(...)`: allocate a fresh map object, returning its reference. -/
def allocCell (h : MapHeap) (v : List (String × Nat)) : MapHeap × Nat :=
  (⟨h.cells ++ [v]⟩, h.cells.length)

/-- The analyzer as seen by `getFontUsageStats`: its internal
`fontUsageStats` map lives in the heap at `statsRef`; the hierarchy and the
primary font are plain fields, not map cells. -/
structure AnalyzerObj where
  statsRef : Nat
  hierarchy : List HNode
  primaryFont : Option String

/-- `FontHierarchyAnalyzer.getFontUsageStats` (lines 177–179): build a
sorted copy of the internal map in a freshly allocated `Map`, leaving the
analyzer object untouched. -/
def getFontUsageStatsRef (h : MapHeap) (a : AnalyzerObj) : MapHeap × AnalyzerObj × Nat :=
  match allocCell h (sortStatsDesc (readCell h a.statsRef)) with
  | (h1, r) => (h1, a, r)

theorem get_append_lt {α : Type} (l l' : List α) (i : Nat) (h : i < l.length) :
    (l ++ l').get? i = l.get? i := by
  simp [List.getElem?_append_left h]

theorem get_append_self {α : Type} (l : List α) (v : α) :
    (l ++ [v]).get? l.length = some v := by
  induction l with
  | nil => rfl
  | cons x xs ih => simp [ih]

theorem set_append_last {α : Type} (l : List α) (x v : α) :
    (l ++ [x]).set l.length v = l ++ [v] := by
  induction l with
  | nil => rfl
  | cons y ys ih => simp [ih]

/-! ## `FontDetectorUI` — interaction state -/

/-- One element of the host page as the interaction engine sees it:
computed outline and background-color, the two data attributes, and
whether the node is connected to the document. -/
structure ElemState where
  outline : String
  backgroundColor : String
  trackAttr : Option String
  modalAttr : Option String
  connected : Bool
deriving DecidableEq, Repr

/-- `TrackedElement` (`types/index.ts`): the element reference and its
pre-highlight style snapshot. -/
structure TrackedElement where
  element : Nat
  origOutline : String
  origBackgroundColor : String
deriving DecidableEq, Repr

/-- `ModalInfo` restricted to the state-bearing fields: target element,
highlight flag, and the modal DOM node's `style.zIndex`. -/
structure ModalInfo where
  targetElement : Nat
  isHighlighted : Bool
  zIndex : Nat
deriving DecidableEq, Repr

/-- The state of `FontDetectorUI`: the page's elements, the
`trackedElements` and `activeModals` maps (insertion ordered), the
`topZIndex` counter and the `isActive` flag. -/
structure UIState where
  dom : Nat → ElemState
  trackedElements : List (String × TrackedElement)
  activeModals : List (String × ModalInfo)
  topZIndex : Nat
  isActive : Bool

/-- `baseZIndex` (`FontDetectorUI.ts` line 14). -/
def baseZIndex : Nat := 10001

def updateDom (dom : Nat → ElemState) (e : Nat) (es : ElemState) : Nat → ElemState :=
  fun x => if x = e then es else dom x

theorem updateDom_same (dom : Nat → ElemState) (e : Nat) (es : ElemState) :
    updateDom dom e es e = es := by
  simp [updateDom]

theorem updateDom_other {x e : Nat} (h : x ≠ e) (dom : Nat → ElemState) (es : ElemState) :
    updateDom dom e es x = dom x := by
  simp [updateDom, h]

/-- `FontDetectorUI.highlightElement` (lines 157–188): read the element's
track attribute (return if absent); on highlighting, snapshot and overwrite
the styles and insert the entry only when the identifier is not yet
tracked; on un-highlighting, restore from the snapshot and delete the entry
only when it is tracked.  The attribute itself is not touched. -/
def highlightElement (s : UIState) (e : Nat) (isHighlighting : Bool) : UIState :=
  match (s.dom e).trackAttr with
  | none => s
  | some trackId =>
    if isHighlighting then
      if (alookup trackId s.trackedElements).isSome then s
      else
        { s with
          dom := updateDom s.dom e
            { s.dom e with
              outline := "2px solid #2196F3",
              backgroundColor := "rgba(33, 150, 243, 0.1)" },
          trackedElements :=
            aset trackId
              ⟨e, (s.dom e).outline, (s.dom e).backgroundColor⟩ s.trackedElements }
    else
      match alookup trackId s.trackedElements with
      | none => s
      | some tracked =>
        { s with
          dom := updateDom s.dom e
            { s.dom e with
              outline := tracked.origOutline,
              backgroundColor := tracked.origBackgroundColor },
          trackedElements := aerase trackId s.trackedElements }

/-- The attribute-setting part of `FontDetectorUI.createHighlightButton`
(lines 224–228): mint a track identifier and stamp both data attributes on
the element.  No tracking-store entry is created here. -/
def createHighlightButton (s : UIState) (e : Nat) (modalId trackId : String) : UIState :=
  { s with
    dom := updateDom s.dom e
      { s.dom e with trackAttr := some trackId, modalAttr := some modalId } }

/-- The highlight-button click handler (lines 250–279): toggle the
highlight through `highlightElement` and mirror the flag into the panel's
`ModalInfo`. -/
def highlightButtonClick (s : UIState) (e : Nat) (modalId : String)
    (isHighlighted : Bool) : UIState :=
  match highlightElement s e isHighlighted with
  | s1 =>
    { s1 with
      activeModals :=
        amodify modalId (fun mi => { mi with isHighlighted := isHighlighted })
          s1.activeModals }

/-- `Math.max(baseZIndex, ...modals.map(m => zIndex))`, the scan used by
`createModal` and `bringToFront`. -/
def maxModalZ (s : UIState) : Nat :=
  (s.activeModals.map (fun p => p.2.zIndex)).foldl max baseZIndex

/-- The panel-opening path of `handleClick` (lines 552–637) restricted to
state: compute the new top z-index by scanning open modals (`createModal`,
lines 284–316), stamp the element's attributes (`createHighlightButton`),
and register the `ModalInfo`. -/
def openPanel (s : UIState) (modalId : String) (e : Nat) (trackId : String) : UIState :=
  match createHighlightButton { s with topZIndex := maxModalZ s + 1 } e modalId trackId with
  | s1 =>
    { s1 with
      activeModals :=
        aset modalId ⟨e, false, maxModalZ s + 1⟩ s1.activeModals }

/-- `FontDetectorUI.bringToFront` (lines 318–331): scan all open modals for
the highest z-index; only when this modal's z-index is strictly below it,
assign highest + 1. -/
def bringToFront (s : UIState) (modalId : String) : UIState :=
  match alookup modalId s.activeModals with
  | none => s
  | some mi =>
    if mi.zIndex < maxModalZ s then
      { s with
        topZIndex := maxModalZ s + 1,
        activeModals :=
          amodify modalId (fun m => { m with zIndex := maxModalZ s + 1 }) s.activeModals }
    else s

/-- `FontDetectorUI.cleanupTrackedElement` (lines 203–222): restore the
snapshot styles and remove both data attributes only when the element is
still connected; delete the map entry unconditionally. -/
def cleanupTrackedElement (s : UIState) (trackId : String) : UIState :=
  match alookup trackId s.trackedElements with
  | none => s
  | some tracked =>
    if (s.dom tracked.element).connected then
      { s with
        dom := updateDom s.dom tracked.element
          { s.dom tracked.element with
            outline := tracked.origOutline,
            backgroundColor := tracked.origBackgroundColor,
            trackAttr := none,
            modalAttr := none },
        trackedElements := aerase trackId s.trackedElements }
    else
      { s with trackedElements := aerase trackId s.trackedElements }

/-- The highlighted-panel sub-step of `cleanupModal` (lines 386–392):
when the panel is highlighted and its target still carries the track
attribute, clean that tracked element. -/
def modalInnerCleanup (s : UIState) (mi : ModalInfo) : UIState :=
  if mi.isHighlighted then
    match (s.dom mi.targetElement).trackAttr with
    | some trackId => cleanupTrackedElement s trackId
    | none => s
  else s

/-- `FontDetectorUI.cleanupModal` (lines 381–405): when the panel is
highlighted, clean the tracked element found through the target's track
attribute first; then drop the `data-modal-id` attribute and the panel
entry. -/
def cleanupModal (s : UIState) (modalId : String) : UIState :=
  match alookup modalId s.activeModals with
  | none => s
  | some mi =>
    match modalInnerCleanup s mi with
    | s1 =>
      { s1 with
        dom := updateDom s1.dom mi.targetElement
          { s1.dom mi.targetElement with modalAttr := none },
        activeModals := aerase modalId s1.activeModals }

/-- `FontDetectorUI.deactivate` (lines 84–119): clean every open modal and
clear the map, then clean every remaining tracked element and clear the
map (the second modal loop of the source runs on an already-empty map),
reset the z-index counter and leave the active state. -/
def deactivate (s : UIState) : UIState :=
  match s.activeModals.foldl (fun st p => cleanupModal st p.1) s with
  | s1 =>
    match { s1 with activeModals := [] } with
    | s2 =>
      match s2.trackedElements.foldl (fun st p => cleanupTrackedElement st p.1) s2 with
      | s3 =>
        { s3 with
          trackedElements := [],
          activeModals := [],
          topZIndex := baseZIndex,
          isActive := false }

/-! ## Claim theorems -/

/-- C2: highlight-on is idempotent — calling `highlightElement` with
`isHighlighting = true` a second (or any further) time on the same element
leaves the whole state (DOM styles and tracking store, in particular the
stored original-style snapshot) exactly as after one call. -/
theorem highlightOn_idempotent (s : UIState) (e : Nat) :
    highlightElement (highlightElement s e true) e true = highlightElement s e true
  ∧ ∀ n : Nat, (fun st => highlightElement st e true)^[n] (highlightElement s e true)
      = highlightElement s e true := by
  have hstep : highlightElement (highlightElement s e true) e true
      = highlightElement s e true := ?_
  · refine ⟨hstep, ?_⟩
    intro n
    induction n with
    | zero => rfl
    | succ m ih => rw [Function.iterate_succ_apply, hstep, ih]
  cases hattr : (s.dom e).trackAttr with
  | none =>
    have h1 : highlightElement s e true = s := by simp [highlightElement, hattr]
    rw [h1]
    exact h1
  | some tid =>
    by_cases hs : (alookup tid s.trackedElements).isSome
    · have h1 : highlightElement s e true = s := by simp [highlightElement, hattr, hs]
      rw [h1]
      exact h1
    · have hs2 : (alookup tid s.trackedElements).isSome = false := by
        simp only [Bool.not_eq_true] at hs
        exact hs
      have h1 : highlightElement s e true =
          { s with
            dom := updateDom s.dom e
              { s.dom e with
                outline := "2px solid #2196F3",
                backgroundColor := "rgba(33, 150, 243, 0.1)" },
            trackedElements :=
              aset tid ⟨e, (s.dom e).outline, (s.dom e).backgroundColor⟩
                s.trackedElements } := by
        simp [highlightElement, hattr, hs2]
      rw [h1]
      have hattr2 : ((updateDom s.dom e
          { s.dom e with
            outline := "2px solid #2196F3",
            backgroundColor := "rgba(33, 150, 243, 0.1)" }) e).trackAttr = some tid := by
        rw [updateDom_same]
        exact hattr
      simp [highlightElement, hattr2, alookup_aset_self]

/-- C3: highlight-on followed by highlight-off on an element that is not
currently tracked restores the element's outline and background-color to
their pre-highlight values exactly, removes the element's entry from the
tracking store, and in fact leaves the tracking store equal to its original
contents. -/
theorem highlight_roundTrip_restores (s : UIState) (e : Nat)
    (h : ∀ tid, (s.dom e).trackAttr = some tid → alookup tid s.trackedElements = none) :
    ((highlightElement (highlightElement s e true) e false).dom e).outline
        = (s.dom e).outline
  ∧ ((highlightElement (highlightElement s e true) e false).dom e).backgroundColor
        = (s.dom e).backgroundColor
  ∧ (highlightElement (highlightElement s e true) e false).trackedElements
        = s.trackedElements
  ∧ (∀ tid, (s.dom e).trackAttr = some tid →
      alookup tid (highlightElement (highlightElement s e true) e false).trackedElements
        = none) := by
  cases hattr : (s.dom e).trackAttr with
  | none =>
    have h1 : highlightElement s e true = s := by simp [highlightElement, hattr]
    have h2 : highlightElement s e false = s := by simp [highlightElement, hattr]
    rw [h1, h2]
    exact ⟨rfl, rfl, rfl, fun tid htid => by simp [hattr] at htid⟩
  | some tid =>
    have hnone := h tid hattr
    have hs2 : (alookup tid s.trackedElements).isSome = false := by
      rw [hnone]
      rfl
    refine ⟨?_, ?_, ?_, ?_⟩
    · simp [highlightElement, updateDom, hattr, hs2, alookup_aset_self, aerase_aset,
        aerase_eq_self hnone]
    · simp [highlightElement, updateDom, hattr, hs2, alookup_aset_self, aerase_aset,
        aerase_eq_self hnone]
    · simp [highlightElement, updateDom, hattr, hs2, alookup_aset_self, aerase_aset,
        aerase_eq_self hnone]
    · intro tid2 htid2
      have htid3 : tid2 = tid := (Option.some.injEq _ _ ▸ htid2 : tid = tid2).symm
      subst htid3
      simp [highlightElement, updateDom, hattr, hs2, alookup_aset_self, aerase_aset,
        aerase_eq_self hnone, hnone]

/-- C3 witness: the round trip at a concrete state (element 0 with outline
`none` and background `red`, already stamped with track identifier `t1`,
nothing tracked yet). -/
theorem highlight_roundTrip_restores_witness :
    ((highlightElement (highlightElement
        ⟨fun _ => ⟨"none", "red", some "t1", some "m1", true⟩, [], [], baseZIndex, true⟩
        0 true) 0 false).dom 0).outline = "none"
  ∧ ((highlightElement (highlightElement
        ⟨fun _ => ⟨"none", "red", some "t1", some "m1", true⟩, [], [], baseZIndex, true⟩
        0 true) 0 false).dom 0).backgroundColor = "red" := by
  have h := highlight_roundTrip_restores
    ⟨fun _ => ⟨"none", "red", some "t1", some "m1", true⟩, [], [], baseZIndex, true⟩ 0
    (by intro tid htid; rfl)
  exact ⟨h.1, h.2.1⟩

/-- C1 counterexample: the claimed store/attribute `iff` invariant fails on
reachable states.  Opening a panel (`createHighlightButton`) stamps the
`data-font-track-id` attribute on the element while creating no tracking
store entry, and toggling the highlight off deletes the store entry while
leaving the attribute in place — in both states exactly one side holds. -/
theorem trackAttr_store_iff_counterexample :
    (((createHighlightButton
        ⟨fun _ => ⟨"none", "red", none, none, true⟩, [], [], baseZIndex, true⟩
        0 "m1" "t1").dom 0).trackAttr = some "t1"
      ∧ alookup "t1" (createHighlightButton
          ⟨fun _ => ⟨"none", "red", none, none, true⟩, [], [], baseZIndex, true⟩
          0 "m1" "t1").trackedElements = none)
  ∧ (((highlightElement (highlightElement
        ⟨fun _ => ⟨"none", "red", some "t1", none, true⟩, [], [], baseZIndex, true⟩
        0 true) 0 false).dom 0).trackAttr = some "t1"
      ∧ alookup "t1" (highlightElement (highlightElement
          ⟨fun _ => ⟨"none", "red", some "t1", none, true⟩, [], [], baseZIndex, true⟩
          0 true) 0 false).trackedElements = none) := by
  decide

/-- C1 amended: the two sides are not kept in an `iff`.  Panel creation
stamps the attribute without touching the store; highlight-on inserts a
store entry only under an already-present attribute, keeping the attribute;
highlight-off removes the store entry but leaves the attribute; only
`cleanupTrackedElement` (used on panel close and deactivation) removes both
together, and the attribute only when the element is still connected. -/
theorem trackAttr_store_amended (s : UIState) (e : Nat) (modalId trackId tid : String) :
    (((createHighlightButton s e modalId trackId).dom e).trackAttr = some trackId
      ∧ (createHighlightButton s e modalId trackId).trackedElements = s.trackedElements)
  ∧ ((s.dom e).trackAttr = some tid → alookup tid s.trackedElements = none →
      alookup tid (highlightElement s e true).trackedElements
          = some ⟨e, (s.dom e).outline, (s.dom e).backgroundColor⟩
        ∧ ((highlightElement s e true).dom e).trackAttr = some tid)
  ∧ (∀ te : TrackedElement, (s.dom e).trackAttr = some tid →
      alookup tid s.trackedElements = some te →
      alookup tid (highlightElement s e false).trackedElements = none
        ∧ ((highlightElement s e false).dom e).trackAttr = some tid)
  ∧ (∀ te : TrackedElement, alookup tid s.trackedElements = some te →
      (s.dom te.element).connected = true →
      alookup tid (cleanupTrackedElement s tid).trackedElements = none
        ∧ ((cleanupTrackedElement s tid).dom te.element).trackAttr = none) := by
  refine ⟨⟨?_, rfl⟩, ?_, ?_, ?_⟩
  · simp [createHighlightButton, updateDom_same]
  · intro hattr hnone
    have hs2 : (alookup tid s.trackedElements).isSome = false := by rw [hnone]; rfl
    constructor
    · simp [highlightElement, hattr, hs2, alookup_aset_self]
    · simp [highlightElement, hattr, hs2, updateDom_same]
  · intro te hattr hsome
    constructor
    · simp [highlightElement, hattr, hsome, alookup_aerase_self]
    · simp [highlightElement, hattr, hsome, updateDom_same]
  · intro te hsome hconn
    constructor
    · simp [cleanupTrackedElement, hsome, hconn, alookup_aerase_self]
    · simp [cleanupTrackedElement, hsome, hconn, updateDom_same]

/-- C1 amended witness: the amended statement applied at concrete states
(one state for the insertion direction, one for the removal directions). -/
theorem trackAttr_store_amended_witness :
    (alookup "t1" (highlightElement
        ⟨fun _ => ⟨"none", "red", some "t1", none, true⟩, [], [], baseZIndex, true⟩
        0 true).trackedElements = some ⟨0, "none", "red"⟩
      ∧ ((highlightElement
          ⟨fun _ => ⟨"none", "red", some "t1", none, true⟩, [], [], baseZIndex, true⟩
          0 true).dom 0).trackAttr = some "t1")
  ∧ (alookup "t1" (cleanupTrackedElement
        ⟨fun _ => ⟨"blue", "green", some "t1", some "m1", true⟩,
          [("t1", ⟨0, "none", "red"⟩)], [], baseZIndex, true⟩
        "t1").trackedElements = none
      ∧ ((cleanupTrackedElement
          ⟨fun _ => ⟨"blue", "green", some "t1", some "m1", true⟩,
            [("t1", ⟨0, "none", "red"⟩)], [], baseZIndex, true⟩
          "t1").dom 0).trackAttr = none) := by
  refine ⟨?_, ?_⟩
  · exact (trackAttr_store_amended
      ⟨fun _ => ⟨"none", "red", some "t1", none, true⟩, [], [], baseZIndex, true⟩
      0 "m1" "t1" "t1").2.1 (by rfl) (by rfl)
  · exact (trackAttr_store_amended
      ⟨fun _ => ⟨"blue", "green", some "t1", some "m1", true⟩,
        [("t1", ⟨0, "none", "red"⟩)], [], baseZIndex, true⟩
      0 "m1" "t1" "t1").2.2.2 ⟨0, "none", "red"⟩ (by rfl) (by rfl)

/-- C4 counterexample: assigned z-index values are not monotonically
increasing across a session.  With four panels at 10002–10005,
`bringToFront` on panel C assigns 10006; after closing panels C and D,
`bringToFront` on panel A assigns only 10004, strictly below the earlier
assignment. -/
theorem bringToFront_monotonic_counterexample :
    (alookup "C" (bringToFront
        ⟨fun _ => ⟨"none", "red", none, none, true⟩, [],
          [("A", ⟨0, false, 10002⟩), ("B", ⟨1, false, 10003⟩),
           ("C", ⟨2, false, 10004⟩), ("D", ⟨3, false, 10005⟩)],
          baseZIndex, true⟩ "C").activeModals).map ModalInfo.zIndex = some 10006
  ∧ (alookup "A" (bringToFront (cleanupModal (cleanupModal (bringToFront
        ⟨fun _ => ⟨"none", "red", none, none, true⟩, [],
          [("A", ⟨0, false, 10002⟩), ("B", ⟨1, false, 10003⟩),
           ("C", ⟨2, false, 10004⟩), ("D", ⟨3, false, 10005⟩)],
          baseZIndex, true⟩ "C") "C") "D") "A").activeModals).map ModalInfo.zIndex
      = some 10004
  ∧ (10004 : Nat) < 10006 := by
  decide

/-- C4 amended: after `bringToFront(P)` the panel P holds the maximum
z-index among open panels; if P already held that maximum nothing changes;
otherwise P receives the previous maximum plus one, strictly above every
panel open at the time of the call.  Session-wide monotonicity of assigned
values does not hold (see the counterexample): after panels are closed a
later assignment can be lower than an earlier one. -/
theorem bringToFront_max_amended (s : UIState) (modalId : String) (mi : ModalInfo)
    (hlk : alookup modalId s.activeModals = some mi)
    (hbase : baseZIndex ≤ mi.zIndex) :
    (∃ mi2, alookup modalId (bringToFront s modalId).activeModals = some mi2
        ∧ ∀ p ∈ (bringToFront s modalId).activeModals, p.2.zIndex ≤ mi2.zIndex)
  ∧ ((∀ p ∈ s.activeModals, p.2.zIndex ≤ mi.zIndex) → bringToFront s modalId = s)
  ∧ ((∃ p ∈ s.activeModals, mi.zIndex < p.2.zIndex) →
      ∃ mi2, alookup modalId (bringToFront s modalId).activeModals = some mi2
        ∧ mi2.zIndex = maxModalZ s + 1
        ∧ (∃ q ∈ s.activeModals, q.2.zIndex = maxModalZ s)
        ∧ (∀ p ∈ s.activeModals, p.2.zIndex < mi2.zIndex)
        ∧ (∀ mid2, mid2 ≠ modalId →
            alookup mid2 (bringToFront s modalId).activeModals
              = alookup mid2 s.activeModals)) := by
  have hmem : ∀ p ∈ s.activeModals, p.2.zIndex ≤ maxModalZ s := by
    intro p hp
    exact mem_le_foldl_max baseZIndex (List.mem_map.mpr ⟨p, hp, rfl⟩)
  refine ⟨?_, ?_, ?_⟩
  · by_cases hlt : mi.zIndex < maxModalZ s
    · refine ⟨{ mi with zIndex := maxModalZ s + 1 }, ?_, ?_⟩
      · simp only [bringToFront, hlk, hlt, if_pos]
        rw [alookup_amodify_self, hlk]
        rfl
      · intro p hp
        simp only [bringToFront, hlk, hlt, if_pos] at hp
        rcases mem_amodify hp with hp2 | ⟨q, hq, hpq⟩
        · exact Nat.le_trans (hmem p hp2) (Nat.le_succ _)
        · rw [hpq]
    · refine ⟨mi, ?_, ?_⟩
      · simp [bringToFront, hlk, hlt]
      · intro p hp
        simp only [bringToFront, hlk, hlt, if_neg, ite_false] at hp
        exact Nat.le_trans (hmem p hp) (Nat.le_of_not_lt hlt)
  · intro hall
    have hle : maxModalZ s ≤ mi.zIndex := by
      refine foldl_max_le hbase ?_
      intro a ha
      rcases List.mem_map.mp ha with ⟨p, hp, hpa⟩
      exact hpa ▸ hall p hp
    have hnlt : ¬ (mi.zIndex < maxModalZ s) := Nat.not_lt.mpr hle
    simp [bringToFront, hlk, hnlt]
  · intro ⟨p, hp, hplt⟩
    have hlt : mi.zIndex < maxModalZ s := Nat.lt_of_lt_of_le hplt (hmem p hp)
    refine ⟨{ mi with zIndex := maxModalZ s + 1 }, ?_, rfl, ?_, ?_, ?_⟩
    · simp only [bringToFront, hlk, hlt, if_pos]
      rw [alookup_amodify_self, hlk]
      rfl
    · rcases foldl_max_mem (s.activeModals.map (fun p => p.2.zIndex)) baseZIndex with hm | hm
    -- the maximum cannot be the bare baseline: some panel exceeds mi.zIndex ≥ base
      · exfalso
        have hmb : maxModalZ s = baseZIndex := hm
        have hmle : maxModalZ s ≤ mi.zIndex := Nat.le_trans (Nat.le_of_eq hmb) hbase
        exact absurd (Nat.lt_of_lt_of_le hplt (hmem p hp)) (Nat.not_lt.mpr hmle)
      · rcases List.mem_map.mp hm with ⟨q, hq, hqz⟩
        exact ⟨q, hq, hqz⟩
    · intro q hq
      exact Nat.lt_succ_of_le (hmem q hq)
    · intro mid2 hmid2
      simp only [bringToFront, hlk, hlt, if_pos]
      exact alookup_amodify_ne hmid2 _ _

/-- C4 witness: the amended statement applied at a concrete two-panel
state in which panel A already holds the maximum, so the call is a no-op. -/
theorem bringToFront_max_amended_witness :
    bringToFront
      ⟨fun _ => ⟨"none", "red", none, none, true⟩, [],
        [("A", ⟨0, false, 10003⟩), ("B", ⟨1, false, 10002⟩)], baseZIndex, true⟩ "A"
    = ⟨fun _ => ⟨"none", "red", none, none, true⟩, [],
        [("A", ⟨0, false, 10003⟩), ("B", ⟨1, false, 10002⟩)], baseZIndex, true⟩ := by
  exact (bringToFront_max_amended
    ⟨fun _ => ⟨"none", "red", none, none, true⟩, [],
      [("A", ⟨0, false, 10003⟩), ("B", ⟨1, false, 10002⟩)], baseZIndex, true⟩
    "A" ⟨0, false, 10003⟩ (by rfl) (by decide)).2.1
    (by decide)

/-- The observable side effects of the cleanup paths, in program order. -/
inductive CleanupEvent where
  | restoreStyles (e : Nat)
  | removeAttrs (e : Nat)
  | removeTrackEntry (tid : String)
  | removeModalEntry (mid : String)
deriving DecidableEq, Repr

/-- The effect order of `cleanupTrackedElement` (lines 203–222): restore
the styles and drop the attributes (only for a connected element), then
delete the store entry. -/
def cleanupTrackedElementEvents (s : UIState) (trackId : String) : List CleanupEvent :=
  match alookup trackId s.trackedElements with
  | none => []
  | some tracked =>
    (if (s.dom tracked.element).connected then
      [CleanupEvent.restoreStyles tracked.element, CleanupEvent.removeAttrs tracked.element]
     else []) ++ [CleanupEvent.removeTrackEntry trackId]

/-- The effect order of `cleanupModal` (lines 381–405): for a highlighted
panel, the tracked-element cleanup runs before the panel entry is
removed. -/
def cleanupModalEvents (s : UIState) (modalId : String) : List CleanupEvent :=
  match alookup modalId s.activeModals with
  | none => []
  | some mi =>
    (if mi.isHighlighted then
      match (s.dom mi.targetElement).trackAttr with
      | some trackId => cleanupTrackedElementEvents s trackId
      | none => []
     else []) ++ [CleanupEvent.removeModalEntry modalId]

/-- C5: closing a panel whose `isHighlighted` flag is set restores the
target element's original outline and background-color, removes the
tracked entry and the panel entry, and the restoration happens before the
entry removals (the event order is restore, remove attributes, remove
track entry, remove panel entry). -/
theorem cleanupModal_restores_before_removal (s : UIState) (modalId trackId : String)
    (mi : ModalInfo) (te : TrackedElement)
    (hm : alookup modalId s.activeModals = some mi)
    (hh : mi.isHighlighted = true)
    (ha : (s.dom mi.targetElement).trackAttr = some trackId)
    (ht : alookup trackId s.trackedElements = some te)
    (hte : te.element = mi.targetElement)
    (hc : (s.dom mi.targetElement).connected = true) :
    ((cleanupModal s modalId).dom mi.targetElement).outline = te.origOutline
  ∧ ((cleanupModal s modalId).dom mi.targetElement).backgroundColor = te.origBackgroundColor
  ∧ alookup trackId (cleanupModal s modalId).trackedElements = none
  ∧ alookup modalId (cleanupModal s modalId).activeModals = none
  ∧ cleanupModalEvents s modalId
      = [CleanupEvent.restoreStyles mi.targetElement,
         CleanupEvent.removeAttrs mi.targetElement,
         CleanupEvent.removeTrackEntry trackId,
         CleanupEvent.removeModalEntry modalId] := by
  have hc2 : (s.dom te.element).connected = true := by rw [hte]; exact hc
  refine ⟨?_, ?_, ?_, ?_, ?_⟩
  · simp [cleanupModal, modalInnerCleanup, cleanupTrackedElement, hm, hh, ha, ht, hc, hc2, hte, updateDom,
      alookup_aerase_self]
  · simp [cleanupModal, modalInnerCleanup, cleanupTrackedElement, hm, hh, ha, ht, hc, hc2, hte, updateDom,
      alookup_aerase_self]
  · simp [cleanupModal, modalInnerCleanup, cleanupTrackedElement, hm, hh, ha, ht, hc, hc2, hte, updateDom,
      alookup_aerase_self]
  · simp [cleanupModal, modalInnerCleanup, cleanupTrackedElement, hm, hh, ha, ht, hc, hc2, hte, updateDom,
      alookup_aerase_self]
  · simp [cleanupModalEvents, cleanupTrackedElementEvents, hm, hh, ha, ht, hc, hc2, hte]

/-- C5 witness: closing a highlighted panel at a concrete state (element 5
highlighted with snapshot outline `dotted`, background `white`). -/
theorem cleanupModal_restores_before_removal_witness :
    ((cleanupModal
        ⟨fun n => if n = 5 then
            ⟨"2px solid #2196F3", "rgba(33, 150, 243, 0.1)", some "t5", some "m5", true⟩
          else ⟨"none", "red", none, none, true⟩,
          [("t5", ⟨5, "dotted", "white"⟩)], [("m5", ⟨5, true, 10002⟩)], 10002, true⟩
        "m5").dom 5).outline = "dotted"
  ∧ alookup "m5" (cleanupModal
        ⟨fun n => if n = 5 then
            ⟨"2px solid #2196F3", "rgba(33, 150, 243, 0.1)", some "t5", some "m5", true⟩
          else ⟨"none", "red", none, none, true⟩,
          [("t5", ⟨5, "dotted", "white"⟩)], [("m5", ⟨5, true, 10002⟩)], 10002, true⟩
        "m5").activeModals = none := by
  have h := cleanupModal_restores_before_removal
    ⟨fun n => if n = 5 then
        ⟨"2px solid #2196F3", "rgba(33, 150, 243, 0.1)", some "t5", some "m5", true⟩
      else ⟨"none", "red", none, none, true⟩,
      [("t5", ⟨5, "dotted", "white"⟩)], [("m5", ⟨5, true, 10002⟩)], 10002, true⟩
    "m5" "t5" ⟨5, true, 10002⟩ ⟨5, "dotted", "white"⟩
    (by rfl) (by rfl) (by rfl) (by rfl) (by rfl) (by rfl)
  exact ⟨h.1, h.2.2.2.1⟩

/-- C6: after any sequence of counted font names, the primary font is the
name that first reached the running maximum count: it equals the
first-to-reach-the-maximum name of the spec model, its count bounds every
other counter (ties keep the earlier name, by the strict comparison), and
on the concrete tie sequence Arial, Georgia, Georgia, Arial the primary is
Georgia — the first name to reach the maximum 2. -/
theorem primaryFont_firstToReachMax (names : List String) :
    (names.foldl updateFontUsageStats analyzerInit).primaryFont
      = (names.foldl primarySpecStep primarySpecInit).firstToMax
  ∧ (∀ k, getCount (names.foldl updateFontUsageStats analyzerInit).fontUsageStats k
      ≤ primaryCount (names.foldl updateFontUsageStats analyzerInit))
  ∧ (["Arial", "Georgia", "Georgia", "Arial"].foldl updateFontUsageStats
      analyzerInit).primaryFont = some "Georgia" := by
  obtain ⟨hstats, hprim, hbound, hmax⟩ := primaryRel_fold names
  refine ⟨hprim, ?_, by decide⟩
  intro k
  cases hp : (names.foldl updateFontUsageStats analyzerInit).primaryFont with
  | none =>
    rw [hp] at hmax
    obtain ⟨hmax0, hempty⟩ := hmax
    simp [primaryCount, hp, hempty, getCount, alookup]
  | some p =>
    rw [hp] at hmax
    have hk := hbound k
    simp only [primaryCount, hp]
    omega

/-! ### Deactivation: cleanup of every tracked element -/

/-- The tracked entry `(tid, te)` has been fully cleaned: styles restored
to the snapshot, attribute removed, store entry gone. -/
def TrackedCleaned (te : TrackedElement) (tid : String) (st : UIState) : Prop :=
  (st.dom te.element).outline = te.origOutline ∧
  (st.dom te.element).backgroundColor = te.origBackgroundColor ∧
  (st.dom te.element).trackAttr = none ∧
  alookup tid st.trackedElements = none

/-- The tracked entry `(tid, te)` is still waiting for cleanup: present in
the store, attribute in place, element connected. -/
def TrackedPending (te : TrackedElement) (tid : String) (st : UIState) : Prop :=
  alookup tid st.trackedElements = some te ∧
  (st.dom te.element).trackAttr = some tid ∧
  (st.dom te.element).connected = true

/-- Every current store entry was a store entry of the starting state. -/
def TrackedSub (s0 st : UIState) : Prop :=
  ∀ p ∈ st.trackedElements, p ∈ s0.trackedElements

/-- No two store entries of the state reference the same element. -/
def DistinctElems (s0 : UIState) : Prop :=
  ∀ p ∈ s0.trackedElements, ∀ q ∈ s0.trackedElements, p.2.element = q.2.element → p = q

theorem cleanupTracked_trackedElements (st : UIState) (tid2 : String) :
    (cleanupTrackedElement st tid2).trackedElements = aerase tid2 st.trackedElements := by
  cases hlk : alookup tid2 st.trackedElements with
  | none => simp [cleanupTrackedElement, hlk, aerase_eq_self hlk]
  | some te2 =>
    by_cases hconn : (st.dom te2.element).connected = true
    · simp [cleanupTrackedElement, hlk, hconn]
    · simp [cleanupTrackedElement, hlk, hconn]

theorem cleanupTracked_dom_other (st : UIState) (tid2 : String) (x : Nat)
    (hx : ∀ te2, alookup tid2 st.trackedElements = some te2 → te2.element ≠ x) :
    (cleanupTrackedElement st tid2).dom x = st.dom x := by
  cases hlk : alookup tid2 st.trackedElements with
  | none => simp [cleanupTrackedElement, hlk]
  | some te2 =>
    have hne : ¬ (x = te2.element) := fun hh => hx te2 hlk hh.symm
    by_cases hconn : (st.dom te2.element).connected = true
    · simp [cleanupTrackedElement, hlk, hconn, updateDom, hne]
    · simp [cleanupTrackedElement, hlk, hconn]

theorem cleanupTracked_dom_self {st : UIState} {tid2 : String} {te2 : TrackedElement}
    (hlk : alookup tid2 st.trackedElements = some te2)
    (hconn : (st.dom te2.element).connected = true) :
    (cleanupTrackedElement st tid2).dom te2.element
      = { st.dom te2.element with
          outline := te2.origOutline,
          backgroundColor := te2.origBackgroundColor,
          trackAttr := none,
          modalAttr := none } := by
  simp [cleanupTrackedElement, hlk, hconn, updateDom]

theorem cleanupTracked_step (s0 : UIState) (te : TrackedElement) (tid : String)
    (hmem : (tid, te) ∈ s0.trackedElements) (hdist : DistinctElems s0)
    {st : UIState} (hsub : TrackedSub s0 st) (tid2 : String) :
    TrackedSub s0 (cleanupTrackedElement st tid2)
  ∧ (TrackedCleaned te tid st → TrackedCleaned te tid (cleanupTrackedElement st tid2))
  ∧ (TrackedPending te tid st → tid2 ≠ tid →
      TrackedPending te tid (cleanupTrackedElement st tid2))
  ∧ (TrackedPending te tid st → tid2 = tid →
      TrackedCleaned te tid (cleanupTrackedElement st tid2)) := by
  refine ⟨?_, ?_, ?_, ?_⟩
  · intro p hp
    rw [cleanupTracked_trackedElements] at hp
    exact hsub p (mem_aerase hp)
  · intro hcl
    obtain ⟨h1, h2, h3, h4⟩ := hcl
    have hdomeq : (cleanupTrackedElement st tid2).dom te.element = st.dom te.element := by
      refine cleanupTracked_dom_other st tid2 te.element ?_
      intro te2 hlk2 hh
      have hmem2 : (tid2, te2) ∈ s0.trackedElements := hsub _ (alookup_some_mem hlk2)
      have hpair := hdist _ hmem2 _ hmem hh
      have ht1 : tid2 = tid := congrArg Prod.fst hpair
      rw [ht1] at hlk2
      rw [hlk2] at h4
      cases h4
    refine ⟨by rw [hdomeq]; exact h1, by rw [hdomeq]; exact h2, by rw [hdomeq]; exact h3, ?_⟩
    rw [cleanupTracked_trackedElements]
    by_cases htid : tid = tid2
    · rw [htid]
      exact alookup_aerase_self _ _
    · rw [alookup_aerase_ne htid]
      exact h4
  · intro hpend htne
    obtain ⟨h1, h2, h3⟩ := hpend
    have hdomeq : (cleanupTrackedElement st tid2).dom te.element = st.dom te.element := by
      refine cleanupTracked_dom_other st tid2 te.element ?_
      intro te2 hlk2 hh
      have hmem2 : (tid2, te2) ∈ s0.trackedElements := hsub _ (alookup_some_mem hlk2)
      have hpair := hdist _ hmem2 _ hmem hh
      exact htne (congrArg Prod.fst hpair)
    refine ⟨?_, by rw [hdomeq]; exact h2, by rw [hdomeq]; exact h3⟩
    rw [cleanupTracked_trackedElements, alookup_aerase_ne (fun hh => htne hh.symm)]
    exact h1
  · intro hpend h2
    obtain ⟨hp1, hp2, hp3⟩ := hpend
    subst h2
    have hdself := cleanupTracked_dom_self hp1 hp3
    refine ⟨by rw [hdself], by rw [hdself], by rw [hdself], ?_⟩
    rw [cleanupTracked_trackedElements]
    exact alookup_aerase_self _ _

theorem modalAttrClear_dom (d : Nat → ElemState) (tgt x : Nat) :
    ((updateDom d tgt { d tgt with modalAttr := none }) x).outline = (d x).outline
  ∧ ((updateDom d tgt { d tgt with modalAttr := none }) x).backgroundColor
      = (d x).backgroundColor
  ∧ ((updateDom d tgt { d tgt with modalAttr := none }) x).trackAttr = (d x).trackAttr
  ∧ ((updateDom d tgt { d tgt with modalAttr := none }) x).connected = (d x).connected := by
  by_cases hx : x = tgt
  · subst hx
    simp [updateDom]
  · simp [updateDom, hx]

theorem cleanupModal_eq {st : UIState} {mid2 : String} {mi : ModalInfo}
    (hlk : alookup mid2 st.activeModals = some mi) :
    cleanupModal st mid2
      = { modalInnerCleanup st mi with
          dom := updateDom (modalInnerCleanup st mi).dom mi.targetElement
            { (modalInnerCleanup st mi).dom mi.targetElement with modalAttr := none },
          activeModals := aerase mid2 (modalInnerCleanup st mi).activeModals } := by
  simp [cleanupModal, hlk]

theorem modalInner_step (s0 : UIState) (te : TrackedElement) (tid : String)
    (hmem : (tid, te) ∈ s0.trackedElements) (hdist : DistinctElems s0)
    {st : UIState} (hsub : TrackedSub s0 st) (mi : ModalInfo) :
    TrackedSub s0 (modalInnerCleanup st mi)
  ∧ (TrackedCleaned te tid st → TrackedCleaned te tid (modalInnerCleanup st mi))
  ∧ (TrackedPending te tid st →
      TrackedCleaned te tid (modalInnerCleanup st mi)
        ∨ TrackedPending te tid (modalInnerCleanup st mi)) := by
  unfold modalInnerCleanup
  cases hhl : mi.isHighlighted with
  | false =>
    simp only [Bool.false_eq_true, if_false, ite_false]
    exact ⟨hsub, fun h => h, fun h => Or.inr h⟩
  | true =>
    simp only [if_true]
    cases hattr : (st.dom mi.targetElement).trackAttr with
    | none => exact ⟨hsub, fun h => h, fun h => Or.inr h⟩
    | some tid2 =>
      obtain ⟨hs, hcl, hpd, hpc⟩ := cleanupTracked_step s0 te tid hmem hdist hsub tid2
      refine ⟨hs, hcl, fun hpend => ?_⟩
      by_cases htid : tid2 = tid
      · exact Or.inl (hpc hpend htid)
      · exact Or.inr (hpd hpend htid)

theorem cleanupModal_step (s0 : UIState) (te : TrackedElement) (tid : String)
    (hmem : (tid, te) ∈ s0.trackedElements) (hdist : DistinctElems s0)
    {st : UIState} (hsub : TrackedSub s0 st) (mid2 : String) :
    TrackedSub s0 (cleanupModal st mid2)
  ∧ (TrackedCleaned te tid st → TrackedCleaned te tid (cleanupModal st mid2))
  ∧ (TrackedPending te tid st →
      TrackedCleaned te tid (cleanupModal st mid2)
        ∨ TrackedPending te tid (cleanupModal st mid2)) := by
  cases hlk : alookup mid2 st.activeModals with
  | none =>
    have heq : cleanupModal st mid2 = st := by simp [cleanupModal, hlk]
    rw [heq]
    exact ⟨hsub, fun h => h, fun h => Or.inr h⟩
  | some mi =>
    obtain ⟨hs1, hc1, hp1⟩ := modalInner_step s0 te tid hmem hdist hsub mi
    have htre : (cleanupModal st mid2).trackedElements
        = (modalInnerCleanup st mi).trackedElements := by
      rw [cleanupModal_eq hlk]
    have hdo : ∀ x, ((cleanupModal st mid2).dom x).outline
          = ((modalInnerCleanup st mi).dom x).outline
        ∧ ((cleanupModal st mid2).dom x).backgroundColor
          = ((modalInnerCleanup st mi).dom x).backgroundColor
        ∧ ((cleanupModal st mid2).dom x).trackAttr
          = ((modalInnerCleanup st mi).dom x).trackAttr
        ∧ ((cleanupModal st mid2).dom x).connected
          = ((modalInnerCleanup st mi).dom x).connected := by
      intro x
      rw [cleanupModal_eq hlk]
      exact modalAttrClear_dom _ _ _
    refine ⟨?_, ?_, ?_⟩
    · intro p hp
      rw [htre] at hp
      exact hs1 p hp
    · intro hcl
      obtain ⟨h21, h22, h23, h24⟩ := hc1 hcl
      exact ⟨(hdo te.element).1.trans h21, (hdo te.element).2.1.trans h22,
        (hdo te.element).2.2.1.trans h23, by rw [htre]; exact h24⟩
    · intro hpend
      rcases hp1 hpend with h2 | h2
      · left
        obtain ⟨h21, h22, h23, h24⟩ := h2
        exact ⟨(hdo te.element).1.trans h21, (hdo te.element).2.1.trans h22,
          (hdo te.element).2.2.1.trans h23, by rw [htre]; exact h24⟩
      · right
        obtain ⟨h21, h22, h23⟩ := h2
        exact ⟨by rw [htre]; exact h21, (hdo te.element).2.2.1.trans h22,
          (hdo te.element).2.2.2.trans h23⟩

theorem fold_cleanupModal_inv (s0 : UIState) (te : TrackedElement) (tid : String)
    (hmem : (tid, te) ∈ s0.trackedElements) (hdist : DistinctElems s0) :
    ∀ (l : List (String × ModalInfo)) {st : UIState}, TrackedSub s0 st →
      (TrackedCleaned te tid st ∨ TrackedPending te tid st) →
      TrackedSub s0 (l.foldl (fun st p => cleanupModal st p.1) st)
        ∧ (TrackedCleaned te tid (l.foldl (fun st p => cleanupModal st p.1) st)
            ∨ TrackedPending te tid (l.foldl (fun st p => cleanupModal st p.1) st)) := by
  intro l
  induction l with
  | nil => exact fun hsub hcp => ⟨hsub, hcp⟩
  | cons p ps ih =>
    intro st hsub hcp
    obtain ⟨hs, hc, hp⟩ := cleanupModal_step s0 te tid hmem hdist hsub p.1
    refine ih hs ?_
    rcases hcp with h | h
    · exact Or.inl (hc h)
    · exact hp h

theorem fold_cleanupTracked_cleans (s0 : UIState) (te : TrackedElement) (tid : String)
    (hmem : (tid, te) ∈ s0.trackedElements) (hdist : DistinctElems s0) :
    ∀ (l : List (String × TrackedElement)) {st : UIState}, TrackedSub s0 st →
      (TrackedCleaned te tid st ∨ (TrackedPending te tid st ∧ ∃ v, (tid, v) ∈ l)) →
      TrackedCleaned te tid (l.foldl (fun st p => cleanupTrackedElement st p.1) st) := by
  intro l
  induction l with
  | nil =>
    intro st hsub hcp
    rcases hcp with h | ⟨_, v, hv⟩
    · exact h
    · simp at hv
  | cons p ps ih =>
    intro st hsub hcp
    obtain ⟨hs, hc, hpd, hpc⟩ := cleanupTracked_step s0 te tid hmem hdist hsub p.1
    rcases hcp with h | ⟨hpend, v, hv⟩
    · exact ih hs (Or.inl (hc h))
    · by_cases htid : p.1 = tid
      · exact ih hs (Or.inl (hpc hpend htid))
      · have hv2 : (tid, v) ∈ ps := by
          rcases List.mem_cons.mp hv with h | h
          · exact absurd (congrArg Prod.fst h.symm) htid
          · exact h
        exact ih hs (Or.inr ⟨hpd hpend htid, v, hv2⟩)

theorem pairwise_distinct {l : List (String × TrackedElement)}
    (h : l.Pairwise (fun a b => a.2.element ≠ b.2.element))
    {p q : String × TrackedElement} (hp : p ∈ l) (hq : q ∈ l)
    (heq : p.2.element = q.2.element) : p = q := by
  induction l with
  | nil => simp at hp
  | cons a t ih =>
    rw [List.pairwise_cons] at h
    rcases List.mem_cons.mp hp with hp1 | hp1 <;> rcases List.mem_cons.mp hq with hq1 | hq1
    · rw [hp1, hq1]
    · exact absurd ((hp1 ▸ heq : a.2.element = q.2.element)) (h.1 q hq1)
    · exact absurd ((hq1 ▸ heq : p.2.element = a.2.element).symm) (h.1 p hp1)
    · exact ih h.2 hp1 hq1

theorem distinctElems_of_pairwise {s : UIState}
    (h : s.trackedElements.Pairwise (fun a b => a.2.element ≠ b.2.element)) :
    DistinctElems s :=
  fun _ hp _ hq heq => pairwise_distinct h hp hq heq

/-- C7 counterexample: the claim fails — an element that was tracked during
the session but un-highlighted before deactivation keeps its
`data-font-track-id` attribute after `deactivate()`, although it had no
such attribute before activation.  Session: open a panel on element 0,
toggle its highlight on, toggle it off, deactivate. -/
theorem deactivate_restore_counterexample :
    (alookup "t1" (highlightButtonClick (openPanel
        ⟨fun _ => ⟨"none", "red", none, none, true⟩, [], [], baseZIndex, true⟩
        "m1" 0 "t1") 0 "m1" true).trackedElements).isSome = true
  ∧ ((deactivate (highlightButtonClick (highlightButtonClick (openPanel
        ⟨fun _ => ⟨"none", "red", none, none, true⟩, [], [], baseZIndex, true⟩
        "m1" 0 "t1") 0 "m1" true) 0 "m1" false)).dom 0).trackAttr = some "t1"
  ∧ ((⟨fun _ => ⟨"none", "red", none, none, true⟩, [], [], baseZIndex, true⟩
        : UIState).dom 0).trackAttr = none := by
  decide

/-- C7 amended: `deactivate()` empties both maps, resets the z-index
counter and the active flag, and for every element still tracked at
deactivation time (under well-formedness: distinct keys, distinct
elements, store entries matching the element attributes) whose element is
still connected, it restores the snapshot outline and background-color and
removes the track attribute.  Elements whose tracking ended before
deactivation (highlight toggled off) keep the track attribute stamped at
panel creation, so the byte-for-byte claim holds only for elements tracked
at deactivation time. -/
theorem deactivate_cleanup_amended (s : UIState)
    (hkeys : (s.trackedElements.map Prod.fst).Nodup)
    (hpair : s.trackedElements.Pairwise (fun a b => a.2.element ≠ b.2.element))
    (hattr : ∀ p ∈ s.trackedElements, (s.dom p.2.element).trackAttr = some p.1) :
    (deactivate s).trackedElements = []
  ∧ (deactivate s).activeModals = []
  ∧ (deactivate s).topZIndex = baseZIndex
  ∧ (deactivate s).isActive = false
  ∧ ∀ tid te, (tid, te) ∈ s.trackedElements → (s.dom te.element).connected = true →
      ((deactivate s).dom te.element).outline = te.origOutline
    ∧ ((deactivate s).dom te.element).backgroundColor = te.origBackgroundColor
    ∧ ((deactivate s).dom te.element).trackAttr = none := by
  have hdist : DistinctElems s := distinctElems_of_pairwise hpair
  refine ⟨rfl, rfl, rfl, rfl, ?_⟩
  intro tid te hm hconn
  have hpend0 : TrackedPending te tid s :=
    ⟨nodup_mem_alookup hkeys hm, hattr (tid, te) hm, hconn⟩
  have hsub0 : TrackedSub s s := fun p hp => hp
  obtain ⟨hs1, hcp1⟩ :=
    fold_cleanupModal_inv s te tid hm hdist s.activeModals hsub0 (Or.inr hpend0)
  -- clearing `activeModals` changes nothing the predicates observe
  have hs2 : TrackedSub s
      { s.activeModals.foldl (fun st p => cleanupModal st p.1) s with
        activeModals := [] } := hs1
  have hcp2 : TrackedCleaned te tid
        ({ s.activeModals.foldl (fun st p => cleanupModal st p.1) s with
          activeModals := [] } : UIState)
      ∨ TrackedPending te tid
        ({ s.activeModals.foldl (fun st p => cleanupModal st p.1) s with
          activeModals := [] } : UIState) := hcp1
  have hprecond : TrackedCleaned te tid
        ({ s.activeModals.foldl (fun st p => cleanupModal st p.1) s with
          activeModals := [] } : UIState)
      ∨ (TrackedPending te tid
          ({ s.activeModals.foldl (fun st p => cleanupModal st p.1) s with
            activeModals := [] } : UIState)
        ∧ ∃ v, (tid, v) ∈
            ({ s.activeModals.foldl (fun st p => cleanupModal st p.1) s with
              activeModals := [] } : UIState).trackedElements) := by
    rcases hcp2 with h | h
    · exact Or.inl h
    · exact Or.inr ⟨h, te, alookup_some_mem h.1⟩
  have hfinal :=
    fold_cleanupTracked_cleans s te tid hm hdist
      ({ s.activeModals.foldl (fun st p => cleanupModal st p.1) s with
        activeModals := [] } : UIState).trackedElements hs2 hprecond
  exact ⟨hfinal.1, hfinal.2.1, hfinal.2.2.1⟩

/-- C7 amended witness: deactivation at a concrete state with two
highlighted, connected, tracked elements restores both elements'
snapshots and removes their attributes. -/
theorem deactivate_cleanup_amended_witness :
    ((deactivate
        ⟨fun n => if n = 1 then ⟨"2px solid #2196F3", "rgba(33, 150, 243, 0.1)",
            some "t1", some "m1", true⟩
          else if n = 2 then ⟨"2px solid #2196F3", "rgba(33, 150, 243, 0.1)",
            some "t2", some "m2", true⟩
          else ⟨"none", "white", none, none, true⟩,
          [("t1", ⟨1, "o1", "b1"⟩), ("t2", ⟨2, "o2", "b2"⟩)],
          [("m1", ⟨1, true, 10002⟩), ("m2", ⟨2, true, 10003⟩)], 10003, true⟩).dom 1).outline
      = "o1"
  ∧ ((deactivate
        ⟨fun n => if n = 1 then ⟨"2px solid #2196F3", "rgba(33, 150, 243, 0.1)",
            some "t1", some "m1", true⟩
          else if n = 2 then ⟨"2px solid #2196F3", "rgba(33, 150, 243, 0.1)",
            some "t2", some "m2", true⟩
          else ⟨"none", "white", none, none, true⟩,
          [("t1", ⟨1, "o1", "b1"⟩), ("t2", ⟨2, "o2", "b2"⟩)],
          [("m1", ⟨1, true, 10002⟩), ("m2", ⟨2, true, 10003⟩)], 10003, true⟩).dom 2).trackAttr
      = none := by
  have h := deactivate_cleanup_amended
    ⟨fun n => if n = 1 then ⟨"2px solid #2196F3", "rgba(33, 150, 243, 0.1)",
        some "t1", some "m1", true⟩
      else if n = 2 then ⟨"2px solid #2196F3", "rgba(33, 150, 243, 0.1)",
        some "t2", some "m2", true⟩
      else ⟨"none", "white", none, none, true⟩,
      [("t1", ⟨1, "o1", "b1"⟩), ("t2", ⟨2, "o2", "b2"⟩)],
      [("m1", ⟨1, true, 10002⟩), ("m2", ⟨2, true, 10003⟩)], 10003, true⟩
    (by decide) (by decide) (by decide)
  exact ⟨(h.2.2.2.2 "t1" ⟨1, "o1", "b1"⟩ (by decide) (by decide)).1,
    (h.2.2.2.2 "t2" ⟨2, "o2", "b2"⟩ (by decide) (by decide)).2.2⟩

/-- C8 counterexample: a qualifying element below a non-qualifying parent
is not analyzed.  In `div(Arial) > p(invisible, Georgia) > span(Courier)`
the span qualifies and its nearest qualifying ancestor is the div, yet the
traversal prunes at the invisible `p`: Courier is never counted and no
node for the span is produced. -/
theorem analyzeHierarchy_prune_counterexample :
    shouldAnalyzeElement (DomTree.mk "span" true true "Courier" []) = true
  ∧ (analyzeHierarchy analyzerInit (DomTree.mk "div" true true "Arial"
      [DomTree.mk "p" false true "Georgia"
        [DomTree.mk "span" true true "Courier" []]])).1.fontUsageStats
      = [("Arial", 1)]
  ∧ alookup "Courier"
      (analyzeHierarchy analyzerInit (DomTree.mk "div" true true "Arial"
        [DomTree.mk "p" false true "Georgia"
          [DomTree.mk "span" true true "Courier" []]])).1.fontUsageStats = none := by
  refine ⟨by decide, ?_, ?_⟩
  · rw [analyzeHierarchy_eq]
    simp only [qualifyingNames, qualifyingNamesList]
    decide
  · rw [analyzeHierarchy_eq]
    simp only [qualifyingNames, qualifyingNamesList]
    decide

/-- C8 amended: the traversal processes exactly the qualifying elements
reachable through a chain of qualifying ancestors (a non-qualifying
element, or one whose metrics extraction fails, prunes its entire
subtree).  For those elements the usage counter of each standardized name
rises by exactly the number of processed elements carrying it, and the
produced hierarchy is the subtree restricted to those elements, each node
under its parent's node. -/
theorem analyzeHierarchy_pruning_amended (st : AnalyzerState) (t : DomTree) :
    analyzeHierarchy st t
      = ((qualifyingNames t).foldl updateFontUsageStats st, prunedNode t)
  ∧ ∀ k, getCount (analyzeHierarchy st t).1.fontUsageStats k
      = getCount st.fontUsageStats k
        + (qualifyingNames t).countP
            (fun n => !(n == "") && (standardizeFontName n == k)) := by
  refine ⟨analyzeHierarchy_eq st t, ?_⟩
  intro k
  rw [analyzeHierarchy_eq st t]
  exact getCount_foldl_update _ _ _

/-- C9 counterexample: the generic-family mapping is a substring test, not
a token test.  `PT Serif` is none of the generic families, yet it is
mapped to `Serif` instead of the title-cased `Pt Serif` the claim
predicts. -/
theorem standardizeFontName_substring_counterexample :
    standardizeFontName "PT Serif" = "Serif"
  ∧ ("PT Serif" : String) ≠ "serif"
  ∧ ("PT Serif" : String) ≠ "sans-serif"
  ∧ ("PT Serif" : String) ≠ "monospace"
  ∧ ("Serif" : String) ≠ "Pt Serif" := by
  decide

theorem standardizeCore_ne_empty (clean : List Char) : standardizeCore clean ≠ "" := by
  simp only [standardizeCore]
  split_ifs with h1 h2 h3 h4
  · decide
  · decide
  · decide
  · decide
  · intro hc
    exact h4 (by simpa using congrArg String.data hc)

theorem standardizeFontName_ne_empty (s2 : String) : standardizeFontName s2 ≠ "" := by
  unfold standardizeFontName
  split_ifs with h
  · decide
  · exact standardizeCore_ne_empty _

/-- C9 amended: the cleaning strips quotes and all non-ASCII characters
(not merely non-printable ones) and collapses whitespace; any cleaned name
whose lower-cased form contains `monospace`, `sans-serif` or `serif` as a
substring (tested in that order) maps to the canonical capitalized token —
not only the exact generic tokens; any other name is title-cased word by
word; the result is never the empty string, with `System Default` for
empty input or an empty cleaned result. -/
theorem standardizeFontName_amended (s2 : String) :
    standardizeFontName s2 ≠ ""
  ∧ (s2 ≠ "" →
      (hasSubstr ((cleanFontChars s2).map Char.toLower) "monospace".data = true →
        standardizeFontName s2 = "Monospace")
      ∧ (hasSubstr ((cleanFontChars s2).map Char.toLower) "monospace".data = false →
          hasSubstr ((cleanFontChars s2).map Char.toLower) "sans-serif".data = true →
          standardizeFontName s2 = "Sans-serif")
      ∧ (hasSubstr ((cleanFontChars s2).map Char.toLower) "monospace".data = false →
          hasSubstr ((cleanFontChars s2).map Char.toLower) "sans-serif".data = false →
          hasSubstr ((cleanFontChars s2).map Char.toLower) "serif".data = true →
          standardizeFontName s2 = "Serif"))
  ∧ standardizeFontName "" = "System Default"
  ∧ standardizeFontName "   " = "System Default"
  ∧ standardizeFontName "PT Serif" = "Serif"
  ∧ standardizeFontName "\"Arial  black\"" = "Arial Black"
  ∧ standardizeFontName "Ariál™" = "Aril" := by
  refine ⟨standardizeFontName_ne_empty s2, ?_, by decide, by decide, by decide, by decide,
    by decide⟩
  intro hne
  refine ⟨?_, ?_, ?_⟩
  · intro hm
    simp [standardizeFontName, standardizeCore, hne, hm]
  · intro hm hs
    simp [standardizeFontName, standardizeCore, hne, hm, hs]
  · intro hm hs hf
    simp [standardizeFontName, standardizeCore, hne, hm, hs, hf]

/-- C9 amended witness: the amended statement applied at concrete inputs
discharging each substring hypothesis. -/
theorem standardizeFontName_amended_witness :
    standardizeFontName "Consolas Monospace Std" = "Monospace"
  ∧ standardizeFontName "web sans-serif pro" = "Sans-serif"
  ∧ standardizeFontName "PT Serif" = "Serif" := by
  refine ⟨?_, ?_, ?_⟩
  · exact ((standardizeFontName_amended "Consolas Monospace Std").2.1
      (by decide)).1 (by decide)
  · exact ((standardizeFontName_amended "web sans-serif pro").2.1
      (by decide)).2.1 (by decide) (by decide)
  · exact ((standardizeFontName_amended "PT Serif").2.1
      (by decide)).2.2 (by decide) (by decide) (by decide)

/-- C10: `getFontUsageStats` returns a freshly allocated map: the returned
reference differs from the analyzer's internal map reference, the analyzer
object itself is returned unchanged, writing any contents through the
returned reference leaves the internal map unchanged, and a subsequent
call after such a mutation still returns the sorted contents of the
internal map as before the mutation. -/
theorem getFontUsageStats_fresh (h : MapHeap) (a : AnalyzerObj)
    (hr : a.statsRef < h.cells.length) :
    (getFontUsageStatsRef h a).2.2 ≠ a.statsRef
  ∧ (getFontUsageStatsRef h a).2.1 = a
  ∧ ∀ v, readCell (writeCell (getFontUsageStatsRef h a).1
        (getFontUsageStatsRef h a).2.2 v) a.statsRef = readCell h a.statsRef
      ∧ readCell
          (getFontUsageStatsRef (writeCell (getFontUsageStatsRef h a).1
            (getFontUsageStatsRef h a).2.2 v) a).1
          (getFontUsageStatsRef (writeCell (getFontUsageStatsRef h a).1
            (getFontUsageStatsRef h a).2.2 v) a).2.2
        = sortStatsDesc (readCell h a.statsRef) := by
  have hne : h.cells.length ≠ a.statsRef := fun hh => absurd (hh ▸ hr) (Nat.lt_irrefl _)
  refine ⟨hne, rfl, ?_⟩
  intro v
  have hwrite : writeCell (getFontUsageStatsRef h a).1 (getFontUsageStatsRef h a).2.2 v
      = ⟨h.cells ++ [v]⟩ := by
    simp only [getFontUsageStatsRef, allocCell, writeCell]
    rw [set_append_last]
  have hread : readCell (⟨h.cells ++ [v]⟩ : MapHeap) a.statsRef = readCell h a.statsRef := by
    simp only [readCell]
    rw [get_append_lt _ _ _ hr]
  refine ⟨by rw [hwrite, hread], ?_⟩
  rw [hwrite]
  simp only [getFontUsageStatsRef, allocCell, readCell]
  rw [get_append_self, get_append_lt _ _ _ hr]
  rfl

/-- C10 witness: the freshness statement at a concrete one-cell heap. -/
theorem getFontUsageStats_fresh_witness :
    (getFontUsageStatsRef ⟨[[("Arial", 2), ("Georgia", 1)]]⟩ ⟨0, [], some "Arial"⟩).2.2 ≠ 0
  ∧ readCell (writeCell
      (getFontUsageStatsRef ⟨[[("Arial", 2), ("Georgia", 1)]]⟩ ⟨0, [], some "Arial"⟩).1
      (getFontUsageStatsRef ⟨[[("Arial", 2), ("Georgia", 1)]]⟩ ⟨0, [], some "Arial"⟩).2.2
      [("X", 9)]) 0 = [("Arial", 2), ("Georgia", 1)] := by
  have h := getFontUsageStats_fresh ⟨[[("Arial", 2), ("Georgia", 1)]]⟩ ⟨0, [], some "Arial"⟩
    (by decide)
  exact ⟨h.1, ((h.2.2 [("X", 9)]).1).trans (by decide)⟩

end FontInspector
